import Mathlib

/-!
Shallow embedding of `src/main.py` (a console tycoon game).

Conventions used throughout:
* Python `int` is embedded as `ℤ`; Python floor division `//` is `Int.fdiv`
  (Python `//` rounds toward negative infinity, as `Int.fdiv` does).
* `time.time()` values (floats used only for timestamps) are embedded as `ℚ`;
  Python's `round` (round half to even) is `pyround` below.
* Stateful methods become pure functions `Office → ... → Office`; methods that
  can raise recoverable exceptions return `Except GameError Office`, and a
  raised exception means the caller's office is unchanged (in the source every
  `raise` happens before the first mutation of the receiver).
* `asyncio` scheduling, the display collaborator, wall-clock log timestamps and
  the `lru_cache`/cached-cost memoisation (pure performance devices) are not
  modelled; log messages are kept without their timestamp suffix.
-/

namespace Tycoon

/-- Python's built-in `round` (round half to even) on rationals, used by
`Office.collect` via `round(cur - last_claim)`.  `x.num / x.den` is the floor
of `x` (the denominator of a reduced rational is positive) and `2 * (x.num %
x.den)` compares the fractional part against `1/2` in integers. -/
def pyround (x : ℚ) : ℤ :=
  let n := x.num / (x.den : ℤ)
  let r2 := 2 * (x.num % (x.den : ℤ))
  if r2 < (x.den : ℤ) then n
  else if (x.den : ℤ) < r2 then n + 1
  else if n % 2 = 0 then n else n + 1

/-- `exponentiation` (src/main.py lines 36-49): integer-only exponentiation by
repeated squaring.  The Python recursion `exponentiation(base, exp // 2)` is
well-founded only for `exp >= 0`, which the `ℕ` exponent captures; the
`lru_cache` decorator is a pure performance device and is not modelled. -/
def exponentiation (base : ℤ) (exp : ℕ) : ℤ :=
  if exp = 0 then 1
  else if exp = 1 then base
  else
    let t := exponentiation base (exp / 2)
    if exp % 2 = 0 then t * t else base * (t * t)
termination_by exp
decreasing_by omega

/-- `PositionType` (lines 60-63). -/
inductive PositionType where
  | consultant
  | manager
  | leader
deriving DecidableEq, Repr

/-- A facility effect: the data of a `StaticBuff` owned by a `Facility`
(the `Facility` constructor rejects any `TimedBuff` effect, lines 373-377). -/
structure StaticData where
  amount : ℤ
  stack : ℤ
deriving DecidableEq, Repr

/-- Discriminant for the `Buff` inheritance chain
`StaticBuff → TimedBuff → {DoubleIncome, RewindTime, ExtraBudget}`. -/
inductive BuffKind where
  | staticB
  | timed
  | doubleIncome
  | rewindTime
  | extraBudget
deriving DecidableEq, Repr

/-- Data of one buff object in the office's `__buffs` list.  `id` stands for
Python object identity (`remove_buff` compares with `is`); `running` is the
`_running` flag of `TimedBuff` (`False` on construction, line 229). -/
structure BuffData where
  id : ℕ
  kind : BuffKind
  amount : ℤ
  stack : ℤ
  duration : ℤ
  running : Bool
deriving DecidableEq, Repr

/-- `Facility` (lines 358-407).  `cachedCost` is the `_cached_cost` pair
`(level, cost)` seeded as `(1, base_cost)` by the constructor. -/
structure Facility where
  name : String
  level : ℕ
  cachedCost : ℕ × ℤ
  baseCost : ℤ
  effects : List StaticData
  R : ℤ
deriving DecidableEq, Repr

/-- The closed-form upgrade cost (line 390):
`(base_cost * (exponentiation(R, level) - exponentiation(100, level)))
  // ((R * exponentiation(100, level-1)) - exponentiation(100, level))`. -/
def costFormula (b R : ℤ) (level : ℕ) : ℤ :=
  Int.fdiv (b * (exponentiation R level - exponentiation 100 level))
    (R * exponentiation 100 (level - 1) - exponentiation 100 level)

/-- `Facility.cost` (lines 386-392): returns the cached cost when the cache
key matches the current level, otherwise the closed form.  The cache write on
a miss stores exactly `costFormula` at the current level, so a cache-valid
facility's `cost` is observationally the pure function below. -/
def Facility.cost (f : Facility) : ℤ :=
  if f.level = f.cachedCost.1 then f.cachedCost.2
  else costFormula f.baseCost f.R f.level

/-- `Facility.upgrade` (lines 402-407): bump the level, add 4 to every owned
effect's amount, and on every 10th level add 1 to every effect's stack. -/
def Facility.upgrade (f : Facility) : Facility :=
  let lvl := f.level + 1
  { f with
    level := lvl
    effects := f.effects.map fun e =>
      { amount := e.amount + 4
        stack := if lvl % 10 = 0 then e.stack + 1 else e.stack } }

/-- Error taxonomy of the recoverable exceptions raised by `Office` methods. -/
inductive GameError where
  | indexError (msg : String)
  | notEnoughBudget (shortfall : ℤ)
  | valueError (msg : String)
deriving DecidableEq, Repr

/-- One rank/age draw consumed by `hire_staff` (the `random.choices` rank and
`random.randint(18, 55)` age of one created `Staff`). -/
structure StaffDraw where
  position : PositionType
  age : ℤ
deriving DecidableEq, Repr

/-- `Office` (lines 410-448).  The retained staff roster (`__staffs`) keeps
only positions: names come from the glue `name_generator` and ages are folded
into `staffIncome` at hire time, and no later operation reads them. -/
structure Office where
  name : String
  address : String
  baseIncome : ℤ
  income : ℤ
  budgets : ℤ
  facilities : List Facility
  logs : List String
  effects : List StaticData
  buffs : List BuffData
  staffs : List PositionType
  lastClaim : ℚ
  staffCost : ℤ
  staffIncome : ℤ
  staffCounts : ℕ
  infoConsultant : ℕ
  infoManager : ℕ
  infoLeader : ℕ
deriving DecidableEq, Repr

/-- `Office.add_log` (lines 515-521), without the wall-clock timestamp suffix:
bounded to the last 5 entries, oldest evicted first. -/
def Office.addLog (o : Office) (msg : String) : Office :=
  let ls := if 5 ≤ o.logs.length then o.logs.tail else o.logs
  { o with logs := ls ++ [msg] }

/-- `Office.update_effects` (lines 609-612): rebuild the `__effects` list from
the facilities' effect lists, in facility-then-list order. -/
def Office.updateEffects (o : Office) : Office :=
  { o with effects := o.facilities.flatMap Facility.effects }

/-- `StaticBuff.activate` (lines 207-208):
`office.income += office.income * (amount * stack) // 500`. -/
def StaticBuff.activate (o : Office) (amount stack : ℤ) : Office :=
  { o with income := o.income + Int.fdiv (o.income * (amount * stack)) 500 }

/-- One `x.activate()` call as issued by `update_income` on an entry of the
office's `__buffs` list, returning the updated office and the updated buff
object (its `_running` flag may flip).
* `staticB`: lines 207-208 (income only);
* `timed`/`extraBudget`: lines 242-246 (schedule once, then the static bump);
* `doubleIncome`: lines 261-266 (schedule once, then `income += income * (1 + stack)`);
* `rewindTime`: lines 288-293 (first activation only: rewind `last_claim` by
  `(duration + amount) * stack`; no income change). -/
def activateBuff (o : Office) (b : BuffData) : Office × BuffData :=
  match b.kind with
  | .staticB => (StaticBuff.activate o b.amount b.stack, b)
  | .timed => (StaticBuff.activate o b.amount b.stack, { b with running := true })
  | .extraBudget => (StaticBuff.activate o b.amount b.stack, { b with running := true })
  | .doubleIncome =>
      ({ o with income := o.income + o.income * (1 + b.stack) }, { b with running := true })
  | .rewindTime =>
      if b.running then (o, b)
      else ({ o with lastClaim := o.lastClaim - (((b.duration + b.amount) * b.stack : ℤ) : ℚ) },
            { b with running := true })

/-- The `for x in self.buffs: x.activate()` pass over the `__buffs` list:
activations thread the office state and persist flag flips in the list. -/
def activateAll : Office → List BuffData → Office × List BuffData
  | o, [] => (o, [])
  | o, b :: rest =>
      let p := activateBuff o b
      let q := activateAll p.1 rest
      (q.1, p.2 :: q.2)

/-- The pure income effect of one facility effect (a `StaticBuff`). -/
def staticIncomeStep (income : ℤ) (e : StaticData) : ℤ :=
  income + Int.fdiv (income * (e.amount * e.stack)) 500

/-- `Office.update_income` (lines 615-619): reset income to the base rate,
activate every buff the `buffs` generator yields (which first re-runs
`update_effects`, then yields the facility effects, then the `__buffs` list),
and only then add the staff contribution.  Facility effects are `StaticBuff`s
(enforced by the `Facility` constructor) whose activation touches only
`income`, so their pass is the pure fold `staticIncomeStep`. -/
def Office.updateIncome (o : Office) : Office :=
  let o0 := o.updateEffects
  let base := o0.effects.foldl staticIncomeStep o0.baseIncome
  let p := activateAll { o0 with income := base } o0.buffs
  { p.1 with buffs := p.2, income := p.1.income + p.1.staffIncome }

/-- `Office.collect` (lines 681-694): recompute effects and income, settle
`income * round(now - last_claim)` into the budget, and advance `last_claim`
only when the delta is non-zero.  The `asyncio.Lock` serialises calls; the
model is the body one caller executes under the lock. -/
def Office.collect (o : Office) (now : ℚ) : Office :=
  let o1 := o.updateEffects.updateIncome
  let cl := o1.income * pyround (now - o1.lastClaim)
  if cl = 0 then o1
  else
    { o1.addLog ("Collect " ++ toString cl) with
      budgets := o1.budgets + o1.income * pyround (now - o1.lastClaim)
      lastClaim := now }

/-- `Office.add_buff` (lines 564-570). -/
def Office.addBuff (o : Office) (b : BuffData) : Office :=
  { o with buffs := o.buffs ++ [b] }

/-- `Office.remove_buff` (lines 573-599): linear scan by object identity,
pop if found, otherwise `raise ValueError("Value not found")`. -/
def Office.removeBuff (o : Office) (bid : ℕ) : Except GameError Office :=
  match o.buffs.findIdx? (fun b => b.id = bid) with
  | some i => .ok { o with buffs := o.buffs.eraseIdx i }
  | none => .error (.valueError "Value not found")

/-- `Office.get_staff_cost` (lines 506-513). -/
def Office.getStaffCost (o : Office) (bulk10 : Bool) : ℤ :=
  if bulk10 then
    let a : ℕ := 10 - o.staffCounts % 10
    o.staffCost * (a : ℤ) + o.staffCost * 3 * ((10 - a : ℕ) : ℤ)
  else o.staffCost

/-- The `_staff_cost` update on line 678: `180 * (3 ** (staff_counts // 10))`,
as a function of the post-hire total `staff_counts`. -/
def staffCostAfter (n : ℕ) : ℤ :=
  180 * 3 ^ (n / 10)

/-- The per-staff bookkeeping of the `for x in st` loop of `hire_staff`
(lines 662-674): rank-3 log line, per-rank counters, `staff_counts`. -/
def hireOne (o : Office) (d : StaffDraw) : Office :=
  let o1 :=
    match d.position with
    | .leader =>
        { o.addLog "You successfully hired rank 3 Leader staff!" with
          infoLeader := o.infoLeader + 1 }
    | .manager => { o with infoManager := o.infoManager + 1 }
    | .consultant => { o with infoConsultant := o.infoConsultant + 1 }
  { o1 with staffCounts := o1.staffCounts + 1 }

/-- `Office.hire_staff` (lines 648-679).  `draws` are the rank/age pairs the
source draws at random (10 of them in bulk mode, 1 otherwise).  The
`NotEnoughBudget` check precedes every mutation, so the error path returns
without an office.  On success: each created `Staff.__init__` adds
`max(55 - age, 10)` to `staff_income` (line 333), the loop updates counters
and logs, the budget is debited, `_staff_cost` is recomputed from the new
total, and managers/leaders join the retained roster. -/
def Office.hireStaff (o : Office) (draws : List StaffDraw) (bulk10 : Bool) :
    Except GameError Office :=
  let cost := o.getStaffCost bulk10
  if cost > o.budgets then .error (.notEnoughBudget (cost - o.budgets))
  else
    let o1 := { o with
      staffIncome := o.staffIncome + (draws.map (fun d => max (55 - d.age) 10)).sum }
    let o2 := draws.foldl hireOne o1
    let s2 := (draws.filter (fun d => d.position = .manager)).length
    let o3 := if 0 < s2 then o2.addLog ("hired " ++ toString s2 ++ " rank 2 Manager staff")
              else o2
    .ok { o3 with
      budgets := o3.budgets - cost
      staffCost := staffCostAfter o3.staffCounts
      staffs := o3.staffs ++
        (draws.filter (fun d => d.position ≠ .consultant)).map StaffDraw.position }

/-- One `upgrader.send(facility_index)` step of the `upgrade_facility`
coroutine (lines 635-646): bounds check, affordability check, then debit the
cached/closed-form cost, upgrade the facility, and refresh the effects list.
An error leaves the office unchanged (both raises precede any mutation). -/
def Office.upgradeFacilityStep (o : Office) (idx : ℤ) : Except GameError Office :=
  if idx < 0 ∨ (o.facilities.length : ℤ) ≤ idx then
    .error (.indexError "Index facility out of range")
  else
    match o.facilities.get? idx.toNat with
    | none => .error (.indexError "Index facility out of range")
    | some f =>
        if f.cost > o.budgets then .error (.notEnoughBudget (f.cost - o.budgets))
        else .ok (Office.updateEffects
          { o with
            budgets := o.budgets - f.cost
            facilities := o.facilities.set idx.toNat f.upgrade })

/-- The fixed facility seed data of `Office.__init__` (lines 426-431). -/
def initialFacilities : List Facility :=
  [ { name := "Chair", level := 1, cachedCost := (1, 50), baseCost := 50
      effects := [⟨5, 1⟩], R := 150 }
  , { name := "Table", level := 1, cachedCost := (1, 100), baseCost := 100
      effects := [⟨10, 1⟩], R := 175 }
  , { name := "PC", level := 1, cachedCost := (1, 200), baseCost := 200
      effects := [⟨10, 1⟩, ⟨5, 2⟩], R := 200 }
  , { name := "Toilet", level := 1, cachedCost := (1, 350), baseCost := 350
      effects := [⟨10, 1⟩, ⟨10, 2⟩, ⟨5, 3⟩], R := 300 } ]

/-- `Office.__init__` (lines 414-448), with the construction wall-clock time
`time.time()` passed in as `t0`.  The constructor ends with `update_effects`. -/
def officeInit (name address : String) (t0 : ℚ) : Office :=
  Office.updateEffects
    { name := name
      address := address
      baseIncome := 10
      income := 10
      budgets := 1600
      facilities := initialFacilities
      logs := []
      effects := []
      buffs := []
      staffs := []
      lastClaim := t0
      staffCost := 160
      staffIncome := 0
      staffCounts := 0
      infoConsultant := 0
      infoManager := 0
      infoLeader := 0 }

/-- The pure income effect of one `__buffs` entry activation: the income
component of `activateBuff`, independent of the `_running` flag. -/
def buffIncomeStep (income : ℤ) (b : BuffData) : ℤ :=
  match b.kind with
  | .rewindTime => income
  | .doubleIncome => income + income * (1 + b.stack)
  | _ => income + Int.fdiv (income * (b.amount * b.stack)) 500

/-- The income value `update_income` computes, as a pure fold: base rate,
then every facility effect, then every active buff, and the staff
contribution added last. -/
def incomePure (o : Office) : ℤ :=
  o.buffs.foldl buffIncomeStep
    ((o.facilities.flatMap Facility.effects).foldl staticIncomeStep o.baseIncome)
    + o.staffIncome

/-- The rate recomputation in the order claim C2 describes (spec §4.5 step 2):
start from `baseIncomeRate + staffIncomeContribution`, then fold in every
permanent and active modifier.  Stated only to compare with the source's
`update_income`. -/
def incomeSpecStaffFirst (o : Office) : ℤ :=
  o.buffs.foldl buffIncomeStep
    ((o.facilities.flatMap Facility.effects).foldl staticIncomeStep
      (o.baseIncome + o.staffIncome))

/-- The buff-object state after one activation pass of `update_income`:
every `TimedBuff` subclass object has its `_running` flag set. -/
def setRun (b : BuffData) : BuffData :=
  match b.kind with
  | .staticB => b
  | _ => { b with running := true }

/-- Office states in which every RewindTime buff in the active list has
already run its first activation.  The spec (§3) demands that no settlement
observes an office mid-rewind; a not-yet-activated RewindTime buff would make
the very settlement that first activates it move `last_claim`. -/
def NoPendingRewind (o : Office) : Prop :=
  ∀ b ∈ o.buffs, b.kind = BuffKind.rewindTime → b.running = true

instance (o : Office) : Decidable (NoPendingRewind o) :=
  inferInstanceAs
    (Decidable (∀ b ∈ o.buffs, b.kind = BuffKind.rewindTime → b.running = true))

/-- `RewindTime.activate` (lines 288-293) on first activation: rewind
`last_claim` by `(duration + amount) * stack`, flip the buff object's
`_running` flag, and capture `office.last_claim` — at that point already
rewound — as the `original_time` argument of the scheduled `_do_timeout`
task (line 292).  Returns the office and the captured timestamp. -/
def RewindTime.activateOp (o : Office) (bid : ℕ) (a s d : ℤ) : Office × ℚ :=
  let o1 := { o with
    lastClaim := o.lastClaim - (((d + a) * s : ℤ) : ℚ)
    buffs := o.buffs.map fun b => if b.id = bid then { b with running := true } else b }
  (o1, o1.lastClaim)

/-- `RewindTime._do_timeout` (lines 277-286): re-rewind `last_claim` from the
captured `original_time`, run a full `collect`, remove the buff, recompute the
rate, then set `last_claim` to `original_time`.  A removal failure raises out
of the task and the remaining lines are skipped. -/
def Office.rewindTimeout (o : Office) (bid : ℕ) (a s d : ℤ) (original now : ℚ) :
    Office :=
  let o1 := { o with lastClaim := original - (((d + a) * s : ℤ) : ℚ) }
  let o2 := o1.collect now
  match o2.removeBuff bid with
  | .error _ => o2
  | .ok o3 => { o3.updateIncome with lastClaim := original }

/-- The whole RewindTime lifecycle of one buff: first activation followed by
its own expiry task, with no interleaving settlement. -/
def rewindLifecycle (o : Office) (bid : ℕ) (a s d : ℤ) (now : ℚ) : Office :=
  let p := RewindTime.activateOp o bid a s d
  p.1.rewindTimeout bid a s d p.2 now

/-- `TimedBuff._do_timeout` (lines 235-240), shared by `DoubleIncome`, and
extended by `ExtraBudget._do_timeout` (lines 308-310) with the delayed budget
grant `budgets += budgets * (amount * stack) // 500`.  `kind`, `a`, `s` are
the fields of the expiring buff object itself (the task holds `self`); a
removal failure raises out of the task before the remaining lines. -/
def Office.buffTimeout (o : Office) (bid : ℕ) (kind : BuffKind) (a s : ℤ)
    (now : ℚ) : Office :=
  let o1 := o.collect now
  match o1.removeBuff bid with
  | .error _ => o1
  | .ok o2 =>
      let o3 := o2.updateIncome
      if kind = .extraBudget then
        { o3 with budgets := o3.budgets + Int.fdiv (o3.budgets * (a * s)) 500 }
      else o3

/-- Every primitive state-mutating operation of the engine, each carrying the
data the source obtains from timers or random draws. -/
inductive GameOp where
  | collect (now : ℚ)
  | upgradeFacility (idx : ℤ)
  | hireStaff (draws : List StaffDraw) (bulk10 : Bool)
  | addTimedBuff (bid : ℕ) (kind : BuffKind) (a s d : ℤ)
  | removeBuff (bid : ℕ)
  | buffTimeout (bid : ℕ) (kind : BuffKind) (a s : ℤ) (now : ℚ)
  | rewindTimeout (bid : ℕ) (a s d : ℤ) (original now : ℚ)
  | refreshIncome

/-- Execute one operation; a raised recoverable error leaves the office
unchanged (every `raise` in the source precedes the first mutation). -/
def applyOp (o : Office) : GameOp → Office
  | .collect now => o.collect now
  | .upgradeFacility idx =>
      match o.upgradeFacilityStep idx with | .ok o1 => o1 | .error _ => o
  | .hireStaff draws bulk10 =>
      match o.hireStaff draws bulk10 with | .ok o1 => o1 | .error _ => o
  | .addTimedBuff bid kind a s d => o.addBuff ⟨bid, kind, a, s, d, false⟩
  | .removeBuff bid =>
      match o.removeBuff bid with | .ok o1 => o1 | .error _ => o
  | .buffTimeout bid kind a s now => o.buffTimeout bid kind a s now
  | .rewindTimeout bid a s d original now => o.rewindTimeout bid a s d original now
  | .refreshIncome => o.updateIncome

/-- Run a whole trace of operations. -/
def applyTrace (o : Office) (ops : List GameOp) : Office :=
  ops.foldl applyOp o

/-- The wall-clock lower bound after an operation fires. -/
def clockAfter (c : ℚ) : GameOp → ℚ
  | .collect now => now
  | .buffTimeout _ _ _ _ now => now
  | .rewindTimeout _ _ _ _ _ now => now
  | _ => c

/-- Well-formedness of one operation against the current clock `c`: timers
fire at or after the present; buff parameters come from the source's draws
(`randint(5, 20)`/`randint(15, 30)` amounts, stacks from `{1, 2, 3}`, fixed
durations 10/20/30 — the model keeps only their nonnegativity, which every
draw satisfies); a RewindTime task's captured timestamp precedes its firing
time. -/
def OpOK (c : ℚ) : GameOp → Prop
  | .collect now => c ≤ now
  | .buffTimeout _ _ a s now => 0 ≤ a ∧ 0 ≤ s ∧ c ≤ now
  | .rewindTimeout _ a s d original now =>
      0 ≤ a ∧ 0 ≤ s ∧ 0 ≤ d ∧ original ≤ now ∧ c ≤ now
  | .addTimedBuff _ kind a s d => kind ≠ .staticB ∧ 0 ≤ a ∧ 0 ≤ s ∧ 0 ≤ d
  | _ => True

/-- Well-formedness of a trace, threading the clock. -/
def ValidFrom : ℚ → List GameOp → Prop
  | _, [] => True
  | c, op :: rest => OpOK c op ∧ ValidFrom (clockAfter c op) rest

/-- Nonnegativity of a facility effect's data. -/
def StaticOK (e : StaticData) : Prop := 0 ≤ e.amount ∧ 0 ≤ e.stack

instance (e : StaticData) : Decidable (StaticOK e) :=
  inferInstanceAs (Decidable (0 ≤ e.amount ∧ 0 ≤ e.stack))

/-- Nonnegativity of a buff object's data. -/
def BuffOK (b : BuffData) : Prop := 0 ≤ b.amount ∧ 0 ≤ b.stack ∧ 0 ≤ b.duration

instance (b : BuffData) : Decidable (BuffOK b) :=
  inferInstanceAs (Decidable (0 ≤ b.amount ∧ 0 ≤ b.stack ∧ 0 ≤ b.duration))

/-- The state invariant: nonnegative budget, nonnegative rate ingredients,
and a settlement timestamp no later than the present `c`. -/
def Inv (o : Office) (c : ℚ) : Prop :=
  0 ≤ o.budgets ∧ 0 ≤ o.baseIncome ∧ 0 ≤ o.staffIncome ∧
  (∀ b ∈ o.buffs, BuffOK b) ∧ (∀ e ∈ o.effects, StaticOK e) ∧
  (∀ f ∈ o.facilities, ∀ e ∈ f.effects, StaticOK e) ∧
  o.lastClaim ≤ c

/-- A neutral office value used to state concrete counterexamples. -/
def demoOffice : Office :=
  { name := "Demo"
    address := "Demo"
    baseIncome := 10
    income := 10
    budgets := 1600
    facilities := []
    logs := []
    effects := []
    buffs := []
    staffs := []
    lastClaim := 0
    staffCost := 160
    staffIncome := 0
    staffCounts := 0
    infoConsultant := 0
    infoManager := 0
    infoLeader := 0 }

/-- An office with one hired-staff contribution and one facility modifier:
base rate 10, staff contribution 100, one permanent modifier with
`amount = 50`, `stack = 10`. -/
def officeStaffDemo : Office :=
  { demoOffice with
    facilities := [{ name := "F", level := 1, cachedCost := (1, 50), baseCost := 50
                     effects := [⟨50, 10⟩], R := 150 }]
    staffIncome := 100 }

/-- An office whose current income is 1000 (used at a concrete activation). -/
def officeIncomeDemo : Office :=
  { demoOffice with income := 1000 }

/-- An office holding one not-yet-activated RewindTime buff
(`duration = 20`, `amount = 5`, `stack = 1`) with `last_claim = 1000`. -/
def officeRewindDemo : Office :=
  { demoOffice with
    lastClaim := 1000
    buffs := [⟨1, .rewindTime, 5, 1, 20, false⟩] }

/-- An office that cannot afford a single hire (`budget = 100 < 160`). -/
def poorOffice : Office :=
  { demoOffice with budgets := 100 }

/-- `∑ i < L, R^i * 100^(L-1-i)`: the geometric series hidden in the
closed-form cost; `(R - 100) * geomSumAux R L = R^L - 100^L`. -/
def geomSumAux (R : ℤ) (L : ℕ) : ℤ :=
  ∑ i in Finset.range L, R ^ i * 100 ^ (L - 1 - i)

/-- The canonical form of an office after the `update_effects();
update_income()` prefix of a settlement, when no RewindTime activation is
pending: effects rebuilt, income recomputed, every timed buff marked running,
and everything else untouched. -/
def settled (o : Office) : Office :=
  { o with
    effects := o.facilities.flatMap Facility.effects
    income := incomePure o
    buffs := o.buffs.map setRun }

/-! ## Theorems -/

lemma exponentiation_eq_pow (b : ℤ) (e : ℕ) : exponentiation b e = b ^ e := by
  induction e using Nat.strong_induction_on with
  | _ e ih =>
    rw [exponentiation]
    split
    · next h0 => simp [h0]
    · next h0 =>
      split
      · next h1 => simp [h1]
      · next h1 =>
        rw [ih (e / 2) (by omega)]
        split
        · next hmod =>
          rw [← pow_add]
          congr 1
          omega
        · next hmod =>
          have h2 : b * (b ^ (e / 2) * b ^ (e / 2)) = b ^ (1 + (e / 2 + e / 2)) := by
            rw [pow_add, pow_add, pow_one]
          rw [h2]
          congr 1
          omega

/-- C10: the repeated-squaring helper `exponentiation` terminates for every
nonnegative exponent (captured by its `ℕ` exponent, on which the recursion
`exp / 2` is well-founded) and returns exactly `base ^ exp`. -/
theorem exponentiation_correct (b : ℤ) (e : ℕ) : exponentiation b e = b ^ e :=
  exponentiation_eq_pow b e

/-- C3 counterexample: at `income = 1000`, a permanent modifier with
`amount = 5`, `stack = 1` yields income 1010 under the source's
`rate += rate * (amount * stack) // 500` (lines 207-208), while the claimed
`// 50000` update would leave income at 1000. -/
theorem staticBuff_divisor_counterexample :
    (StaticBuff.activate officeIncomeDemo 5 1).income ≠
      officeIncomeDemo.income + Int.fdiv (officeIncomeDemo.income * (5 * 1)) 50000 := by
  decide

/-- C3 (amended): activating a permanent modifier updates the rate as
`rate += rate * (amount * stack) // 500` — the divisor in the source is 500,
not 50000 — and this is exactly what the generic buff-activation pass does on
a permanent (`StaticBuff`) entry. -/
theorem staticBuff_activate_formula (o : Office) (b : BuffData)
    (h : b.kind = BuffKind.staticB) :
    (StaticBuff.activate o b.amount b.stack).income =
        o.income + Int.fdiv (o.income * (b.amount * b.stack)) 500 ∧
      activateBuff o b = (StaticBuff.activate o b.amount b.stack, b) := by
  obtain ⟨bid, kind, a, s, d, r⟩ := b
  cases h
  exact ⟨rfl, rfl⟩

theorem staticBuff_activate_formula_witness :
    (StaticBuff.activate officeIncomeDemo (5 : ℤ) (1 : ℤ)).income =
        officeIncomeDemo.income + Int.fdiv (officeIncomeDemo.income * ((5 : ℤ) * 1)) 500 ∧
      activateBuff officeIncomeDemo ⟨0, .staticB, 5, 1, 0, false⟩ =
        (StaticBuff.activate officeIncomeDemo 5 1, ⟨0, .staticB, 5, 1, 0, false⟩) :=
  staticBuff_activate_formula officeIncomeDemo ⟨0, .staticB, 5, 1, 0, false⟩ rfl

/-- C5 counterexample: removing a buff that is not in the active list is not
a silent no-op — the source raises `ValueError("Value not found")`
(lines 596-599), as its own docstring documents. -/
theorem removeBuff_absent_counterexample :
    demoOffice.removeBuff 0 = Except.error (GameError.valueError "Value not found") :=
  rfl

/-- C5 (amended): removing a buff object absent from the active list raises
`ValueError("Value not found")`; the office is left unchanged (the raise
precedes any mutation), but the removal is an error, not a silent no-op. -/
theorem removeBuff_absent_raises (o : Office) (bid : ℕ)
    (h : ∀ b ∈ o.buffs, b.id ≠ bid) :
    o.removeBuff bid = Except.error (GameError.valueError "Value not found") := by
  unfold Office.removeBuff
  have hn : o.buffs.findIdx? (fun b => b.id = bid) = none := by
    rw [List.findIdx?_eq_none_iff]
    intro b hb
    simpa using h b hb
  rw [hn]

theorem removeBuff_absent_raises_witness :
    (∀ b ∈ demoOffice.buffs, b.id ≠ 5) ∧
      demoOffice.removeBuff 5 = Except.error (GameError.valueError "Value not found") :=
  ⟨by decide, removeBuff_absent_raises demoOffice 5 (by decide)⟩

/-- C6: a hire request (single or bulk) whose cost exceeds the budget fails
with `NotEnoughBudget` carrying shortfall `cost - budget` exactly, and the
operation leaves the office completely unchanged — the check precedes every
mutation, so no partial hire occurs. -/
theorem hireStaff_insufficient (o : Office) (draws : List StaffDraw) (bulk10 : Bool)
    (h : o.budgets < o.getStaffCost bulk10) :
    o.hireStaff draws bulk10 =
        Except.error (GameError.notEnoughBudget (o.getStaffCost bulk10 - o.budgets)) ∧
      applyOp o (GameOp.hireStaff draws bulk10) = o := by
  have h1 : o.hireStaff draws bulk10 =
      Except.error (GameError.notEnoughBudget (o.getStaffCost bulk10 - o.budgets)) := by
    unfold Office.hireStaff
    rw [if_pos h]
  refine ⟨h1, ?_⟩
  simp only [applyOp]
  rw [h1]

theorem hireStaff_insufficient_witness :
    poorOffice.budgets < poorOffice.getStaffCost false ∧
      poorOffice.hireStaff [⟨.consultant, 30⟩] false =
          Except.error (GameError.notEnoughBudget (poorOffice.getStaffCost false - poorOffice.budgets)) ∧
        applyOp poorOffice (GameOp.hireStaff [⟨.consultant, 30⟩] false) = poorOffice :=
  ⟨by decide, hireStaff_insufficient poorOffice [⟨.consultant, 30⟩] false (by decide)⟩

/-- C8: the price of a 10-unit bulk hire is
`unitCost * (10 - totalHired % 10) + 3 * unitCost * (totalHired % 10)`
(lines 509-511), and the unit cost written back after a hire,
`180 * 3 ^ (totalHired / 10)` (line 678), is multiplied by 3 for each
completed decile of total hires. -/
theorem staff_cost_bulk_formula :
    (∀ o : Office, o.getStaffCost true =
        o.staffCost * ((10 - o.staffCounts % 10 : ℕ) : ℤ) +
          3 * o.staffCost * ((o.staffCounts % 10 : ℕ) : ℤ)) ∧
      ∀ n : ℕ, staffCostAfter (n + 10) = 3 * staffCostAfter n := by
  constructor
  · intro o
    have h5 : o.staffCounts % 10 ≤ 10 := Nat.le_of_lt (Nat.mod_lt _ (by norm_num))
    simp only [Office.getStaffCost, if_pos]
    rw [Nat.sub_sub_self h5]
    ring
  · intro n
    unfold staffCostAfter
    rw [Nat.add_div_right _ (by norm_num), pow_succ]
    ring

lemma geomSumAux_nonneg (R : ℤ) (hR : 0 ≤ R) (L : ℕ) : 0 ≤ geomSumAux R L := by
  unfold geomSumAux
  refine Finset.sum_nonneg fun i _ => ?_
  exact mul_nonneg (pow_nonneg hR i) (pow_nonneg (by norm_num) _)

lemma geomSumAux_succ (R : ℤ) (L : ℕ) :
    geomSumAux R (L + 1) = 100 * geomSumAux R L + R ^ L := by
  unfold geomSumAux
  rw [Finset.sum_range_succ, Finset.mul_sum]
  congr 1
  · refine Finset.sum_congr rfl fun i hi => ?_
    have hiL : i < L := Finset.mem_range.mp hi
    have h1 : L + 1 - 1 - i = (L - 1 - i) + 1 := by omega
    rw [h1, pow_succ]
    ring
  · have h2 : L + 1 - 1 - L = 0 := by omega
    rw [h2, pow_zero, mul_one]

lemma costFormula_eq_ediv (b R : ℤ) (L : ℕ) (hR : 100 < R) (hL : 1 ≤ L) :
    costFormula b R L = b * geomSumAux R L / 100 ^ (L - 1) := by
  have hL1 : L - 1 + 1 = L := by omega
  have hpow : (100 : ℤ) ^ L = 100 ^ (L - 1) * 100 := by
    rw [← pow_succ, hL1]
  have hnum : b * (R ^ L - 100 ^ L) = (R - 100) * (b * geomSumAux R L) := by
    have hg := geom_sum₂_mul R 100 L
    unfold geomSumAux
    rw [← hg]
    ring
  have hden : R * 100 ^ (L - 1) - 100 ^ L = (R - 100) * 100 ^ (L - 1) := by
    rw [hpow]
    ring
  have hdnn : (0 : ℤ) ≤ (R - 100) * 100 ^ (L - 1) :=
    mul_nonneg (by linarith) (pow_nonneg (by norm_num) _)
  unfold costFormula
  simp only [exponentiation_eq_pow]
  rw [hnum, hden, Int.fdiv_eq_ediv _ hdnn,
    Int.mul_ediv_mul_of_pos _ _ (by linarith : (0 : ℤ) < R - 100)]

/-- C7: for every facility whose growth ratio `R` (integer percent) exceeds
100 (with a positive base cost, as all four seeded facilities have) the
closed-form geometric cost is strictly increasing in the level, so each
upgrade strictly raises the price of the next one. -/
theorem facility_cost_strict_mono (b R : ℤ) (L : ℕ)
    (hb : 1 ≤ b) (hR : 100 < R) (hL : 1 ≤ L) :
    costFormula b R L < costFormula b R (L + 1) := by
  have e1 := costFormula_eq_ediv b R L hR hL
  have e2 := costFormula_eq_ediv b R (L + 1) hR (by omega)
  have hL1 : L + 1 - 1 = L := by omega
  rw [e1, e2, hL1]
  have hpow : (0 : ℤ) < 100 ^ L := pow_pos (by norm_num) L
  have hpow1 : (0 : ℤ) < 100 ^ (L - 1) := pow_pos (by norm_num) _
  have hpowL : (100 : ℤ) ^ L = 100 ^ (L - 1) * 100 := by
    rw [← pow_succ]
    congr 1
    omega
  have key : b * geomSumAux R L / 100 ^ (L - 1) + 1 ≤
      b * geomSumAux R (L + 1) / 100 ^ L := by
    rw [Int.le_ediv_iff_mul_le hpow]
    have hq : b * geomSumAux R L / 100 ^ (L - 1) * 100 ^ (L - 1) ≤
        b * geomSumAux R L := Int.ediv_mul_le _ (ne_of_gt hpow1)
    have hRL : (100 : ℤ) ^ L ≤ R ^ L := pow_le_pow_left₀ (by norm_num) (le_of_lt hR) L
    have hbRL : (100 : ℤ) ^ L ≤ b * R ^ L := by
      have hRLnn : (0 : ℤ) ≤ R ^ L := le_trans (le_of_lt hpow) hRL
      calc (100 : ℤ) ^ L ≤ R ^ L := hRL
        _ = 1 * R ^ L := (one_mul _).symm
        _ ≤ b * R ^ L := mul_le_mul_of_nonneg_right hb hRLnn
    have hsucc : b * geomSumAux R (L + 1) = 100 * (b * geomSumAux R L) + b * R ^ L := by
      rw [geomSumAux_succ]
      ring
    have expand : (b * geomSumAux R L / 100 ^ (L - 1) + 1) * 100 ^ L =
        b * geomSumAux R L / 100 ^ (L - 1) * 100 ^ (L - 1) * 100 + 100 ^ L := by
      rw [hpowL]
      ring
    rw [hsucc, expand]
    have h1 : b * geomSumAux R L / 100 ^ (L - 1) * 100 ^ (L - 1) * 100 ≤
        b * geomSumAux R L * 100 := mul_le_mul_of_nonneg_right hq (by norm_num)
    linarith
  linarith

theorem facility_cost_strict_mono_witness :
    ((1 : ℤ) ≤ 50 ∧ (100 : ℤ) < 150 ∧ 1 ≤ 1) ∧
      costFormula 50 150 1 < costFormula 50 150 2 :=
  ⟨by norm_num, facility_cost_strict_mono 50 150 1 (by norm_num) (by norm_num) (by norm_num)⟩

lemma activateBuff_income (o : Office) (b : BuffData) :
    (activateBuff o b).1.income = buffIncomeStep o.income b := by
  obtain ⟨bid, kind, a, s, d, r⟩ := b
  cases kind <;> simp [activateBuff, buffIncomeStep, StaticBuff.activate]
  split <;> rfl

lemma activateAll_income (l : List BuffData) (o : Office) :
    (activateAll o l).1.income = l.foldl buffIncomeStep o.income := by
  induction l generalizing o with
  | nil => rfl
  | cons b rest ih =>
      simp only [activateAll, List.foldl_cons]
      rw [ih, activateBuff_income]

lemma activateBuff_shape (o : Office) (b : BuffData) :
    ∃ i0 l0, (activateBuff o b).1 = { o with income := i0, lastClaim := l0 } := by
  obtain ⟨bid, kind, a, s, d, r⟩ := b
  cases kind
  · exact ⟨_, _, rfl⟩
  · exact ⟨_, _, rfl⟩
  · exact ⟨_, _, rfl⟩
  · cases r
    · exact ⟨o.income, _, rfl⟩
    · exact ⟨o.income, o.lastClaim, rfl⟩
  · exact ⟨_, _, rfl⟩

lemma activateAll_shape (l : List BuffData) (o : Office) :
    ∃ i lc bs, activateAll o l = ({ o with income := i, lastClaim := lc }, bs) := by
  induction l generalizing o with
  | nil => exact ⟨o.income, o.lastClaim, [], rfl⟩
  | cons b rest ih =>
      obtain ⟨i0, l0, hb⟩ := activateBuff_shape o b
      obtain ⟨i1, l1, bs1, h1⟩ := ih (activateBuff o b).1
      refine ⟨i1, l1, (activateBuff o b).2 :: bs1, ?_⟩
      simp only [activateAll]
      rw [h1, hb]

lemma updateIncome_income (o : Office) :
    o.updateIncome.income = incomePure o := by
  unfold Office.updateIncome Office.updateEffects incomePure
  obtain ⟨i, lc, bs, h⟩ := activateAll_shape o.buffs
    { o with effects := o.facilities.flatMap Facility.effects, income :=
        (o.facilities.flatMap Facility.effects).foldl staticIncomeStep o.baseIncome }
  have hinc := activateAll_income o.buffs
    { o with effects := o.facilities.flatMap Facility.effects, income :=
        (o.facilities.flatMap Facility.effects).foldl staticIncomeStep o.baseIncome }
  simp only [h] at hinc ⊢
  simp [hinc]

/-- C2 counterexample: with base rate 10, staff contribution 100 and one
permanent modifier (`amount = 50`, `stack = 10`), `update_income` yields 120
(modifiers fold over the base rate alone, staff added last), not the 220 the
claimed staff-first ordering would give. -/
theorem update_income_staff_order_counterexample :
    officeStaffDemo.updateIncome.income ≠ incomeSpecStaffFirst officeStaffDemo := by
  decide

/-- C2 (amended): every settlement recomputes `currentIncomeRate` from
scratch — the previous income value is discarded — as `baseIncomeRate`, then
the fold of every permanent and active modifier, with
`staffIncomeContribution` added only *after* the fold (line 619 runs after the
activation loop), so modifiers compound against a rate that does *not* yet
include the staff contribution. -/
theorem update_income_recompute (o : Office) :
    o.updateIncome.income = incomePure o ∧
      ∀ v : ℤ, (Office.updateIncome { o with income := v }).income =
        o.updateIncome.income := by
  refine ⟨updateIncome_income o, fun v => ?_⟩
  rw [updateIncome_income, updateIncome_income]
  rfl

lemma pyround_zero : pyround 0 = 0 := rfl

lemma buffIncomeStep_setRun (i : ℤ) (b : BuffData) :
    buffIncomeStep i (setRun b) = buffIncomeStep i b := by
  obtain ⟨bid, kind, a, s, d, r⟩ := b
  cases kind <;> rfl

lemma foldl_buffIncomeStep_map_setRun (l : List BuffData) (i : ℤ) :
    (l.map setRun).foldl buffIncomeStep i = l.foldl buffIncomeStep i := by
  induction l generalizing i with
  | nil => rfl
  | cons b rest ih =>
      simp only [List.map_cons, List.foldl_cons, buffIncomeStep_setRun, ih]

lemma setRun_idem (b : BuffData) : setRun (setRun b) = setRun b := by
  obtain ⟨bid, kind, a, s, d, r⟩ := b
  cases kind <;> rfl

lemma map_setRun_setRun (l : List BuffData) :
    (l.map setRun).map setRun = l.map setRun := by
  rw [List.map_map]
  exact List.map_congr_left fun b _ => setRun_idem b

lemma setRun_noPending (b : BuffData) :
    (setRun b).kind = BuffKind.rewindTime → (setRun b).running = true := by
  obtain ⟨bid, kind, a, s, d, r⟩ := b
  cases kind <;> simp [setRun]

lemma noPending_of_map_setRun (a : Office) (l : List BuffData)
    (h : a.buffs = l.map setRun) : NoPendingRewind a := by
  intro b hb
  rw [h] at hb
  obtain ⟨x, _, rfl⟩ := List.mem_map.mp hb
  exact setRun_noPending x

lemma incomePure_congr (a o : Office) (hb : a.buffs = o.buffs.map setRun)
    (hf : a.facilities = o.facilities) (hbase : a.baseIncome = o.baseIncome)
    (hst : a.staffIncome = o.staffIncome) : incomePure a = incomePure o := by
  unfold incomePure
  rw [hb, hf, hbase, hst, foldl_buffIncomeStep_map_setRun]

lemma activateBuff_noPending (o : Office) (b : BuffData)
    (h : b.kind = BuffKind.rewindTime → b.running = true) :
    activateBuff o b = ({ o with income := buffIncomeStep o.income b }, setRun b) := by
  obtain ⟨bid, kind, a, s, d, r⟩ := b
  cases kind
  · rfl
  · rfl
  · rfl
  · have hr : r = true := h rfl
    subst hr
    rfl
  · rfl

lemma activateAll_noPending (l : List BuffData) (o : Office)
    (h : ∀ b ∈ l, b.kind = BuffKind.rewindTime → b.running = true) :
    activateAll o l =
      ({ o with income := l.foldl buffIncomeStep o.income }, l.map setRun) := by
  induction l generalizing o with
  | nil => rfl
  | cons b rest ih =>
      have hb := activateBuff_noPending o b (h b (List.mem_cons_self b rest))
      simp only [activateAll, hb, List.foldl_cons, List.map_cons]
      rw [ih _ fun x hx => h x (List.mem_cons_of_mem b hx)]

lemma updateIncome_noPending (o : Office) (h : NoPendingRewind o) :
    o.updateIncome = settled o := by
  have heq := activateAll_noPending o.buffs
    { o with effects := o.facilities.flatMap Facility.effects, income :=
        (o.facilities.flatMap Facility.effects).foldl staticIncomeStep o.baseIncome } h
  unfold Office.updateIncome Office.updateEffects settled incomePure
  simp only [heq]

lemma settle_eq (o : Office) (h : NoPendingRewind o) :
    o.updateEffects.updateIncome = settled o := by
  have h2 : NoPendingRewind o.updateEffects := h
  rw [updateIncome_noPending _ h2]
  rfl

lemma settled_fixed (a : Office)
    (hb : a.buffs.map setRun = a.buffs)
    (he : a.facilities.flatMap Facility.effects = a.effects)
    (hi : incomePure a = a.income) :
    settled a = a := by
  unfold settled
  rw [hb, he, hi]

lemma collect_eq (o : Office) (now : ℚ) (h : NoPendingRewind o) :
    o.collect now =
      if incomePure o * pyround (now - o.lastClaim) = 0 then settled o
      else
        { (settled o).addLog
            ("Collect " ++ toString (incomePure o * pyround (now - o.lastClaim))) with
          budgets := o.budgets + incomePure o * pyround (now - o.lastClaim)
          lastClaim := now } := by
  unfold Office.collect
  rw [settle_eq o h]
  rfl

lemma collect_of_delta_zero (a : Office) (now : ℚ) (h : NoPendingRewind a)
    (hz : incomePure a * pyround (now - a.lastClaim) = 0)
    (hb : a.buffs.map setRun = a.buffs)
    (he : a.facilities.flatMap Facility.effects = a.effects)
    (hi : incomePure a = a.income) :
    a.collect now = a := by
  rw [collect_eq a now h, if_pos hz]
  exact settled_fixed a hb he hi

/-- C1: for every office state observable by a settlement (no RewindTime
activation pending, the situation §3 excludes from settlement view) and every
nonnegative count `t` of elapsed whole seconds since `lastSettlementTime`,
one `collect` adds exactly `currentIncomeRate * t` (the rate this settlement
recomputes) to the budget; whenever the computed delta is zero the call
leaves budget and `lastSettlementTime` unchanged, and repeating the call with
no further elapsed whole seconds is an exact no-op on the whole office
state. -/
theorem collect_settlement (o : Office) (now : ℚ)
    (hnr : NoPendingRewind o) (ht : 0 ≤ pyround (now - o.lastClaim)) :
    (o.collect now).budgets =
        o.budgets + o.updateEffects.updateIncome.income * pyround (now - o.lastClaim) ∧
      (o.updateEffects.updateIncome.income * pyround (now - o.lastClaim) = 0 →
        (o.collect now).budgets = o.budgets ∧
          (o.collect now).lastClaim = o.lastClaim) ∧
      (o.collect now).collect now = o.collect now := by
  have hinc : o.updateEffects.updateIncome.income = incomePure o := by
    rw [settle_eq o hnr]
    rfl
  rw [hinc, collect_eq o now hnr]
  by_cases hz : incomePure o * pyround (now - o.lastClaim) = 0
  · rw [if_pos hz]
    refine ⟨?_, fun _ => ⟨rfl, rfl⟩, ?_⟩
    · rw [hz, add_zero]
      rfl
    · exact collect_of_delta_zero (settled o) now
        (noPending_of_map_setRun _ o.buffs rfl)
        (by rw [incomePure_congr (settled o) o rfl rfl rfl rfl]; exact hz)
        (map_setRun_setRun o.buffs) rfl
        (incomePure_congr (settled o) o rfl rfl rfl rfl)
  · rw [if_neg hz]
    refine ⟨rfl, fun h0 => absurd h0 hz, ?_⟩
    refine collect_of_delta_zero _ now (noPending_of_map_setRun _ o.buffs rfl) ?_
      (map_setRun_setRun o.buffs) rfl ?_
    · dsimp only
      rw [sub_self, pyround_zero, mul_zero]
    · exact incomePure_congr _ o rfl rfl rfl rfl

theorem collect_settlement_witness :
    (NoPendingRewind (officeInit "a" "b" 0) ∧
        0 ≤ pyround (10 - (officeInit "a" "b" 0).lastClaim)) ∧
      (((officeInit "a" "b" 0).collect 10).budgets =
          (officeInit "a" "b" 0).budgets +
            (officeInit "a" "b" 0).updateEffects.updateIncome.income *
              pyround (10 - (officeInit "a" "b" 0).lastClaim) ∧
        ((officeInit "a" "b" 0).updateEffects.updateIncome.income *
            pyround (10 - (officeInit "a" "b" 0).lastClaim) = 0 →
          ((officeInit "a" "b" 0).collect 10).budgets =
              (officeInit "a" "b" 0).budgets ∧
            ((officeInit "a" "b" 0).collect 10).lastClaim =
              (officeInit "a" "b" 0).lastClaim) ∧
        ((officeInit "a" "b" 0).collect 10).collect 10 =
          (officeInit "a" "b" 0).collect 10) :=
  have h1 : NoPendingRewind (officeInit "a" "b" 0) :=
    fun b hb => absurd hb (List.not_mem_nil b)
  have h2 : 0 ≤ pyround (10 - (officeInit "a" "b" 0).lastClaim) := by
    rw [show (officeInit "a" "b" 0).lastClaim = 0 from rfl, sub_zero]
    decide
  ⟨⟨h1, h2⟩, collect_settlement (officeInit "a" "b" 0) 10 h1 h2⟩

lemma collect_buffs (o : Office) (now : ℚ) (h : NoPendingRewind o) :
    (o.collect now).buffs = o.buffs.map setRun := by
  rw [collect_eq o now h]
  split <;> rfl

lemma rewindTimeout_lastClaim (o : Office) (bid : ℕ) (a s d : ℤ)
    (original now : ℚ) (o3 : Office)
    (h3 : (Office.collect
          { o with lastClaim := original - (((d + a) * s : ℤ) : ℚ) } now).removeBuff
        bid = .ok o3) :
    (o.rewindTimeout bid a s d original now).lastClaim = original := by
  unfold Office.rewindTimeout
  simp only [h3]

/-- C4 (code at the failing input): in the §8 scenario — a RewindTime buff
with `duration = 20`, `amount = 5`, `stack = 1` activated while
`lastSettlementTime = T` — activation does rewind to `T - 25`, but after the
expiry task completes `lastSettlementTime` is again `T - 25`, the *rewound*
value, not the original `T`: line 292 captures `office.last_claim` only after
line 291 has already moved it, so the "original time" the task restores is
the rewound one. -/
theorem rewindTime_restores_rewound_value :
    (RewindTime.activateOp officeRewindDemo 1 5 1 20).1.lastClaim =
        officeRewindDemo.lastClaim - 25 ∧
      (rewindLifecycle officeRewindDemo 1 5 1 20 1100).lastClaim =
        officeRewindDemo.lastClaim - 25 ∧
      officeRewindDemo.lastClaim - 25 ≠ officeRewindDemo.lastClaim := by
  have hcast : (((20 + 5) * 1 : ℤ) : ℚ) = 25 := by norm_num
  refine ⟨?_, ?_, ?_⟩
  · show officeRewindDemo.lastClaim - (((20 + 5) * 1 : ℤ) : ℚ) =
      officeRewindDemo.lastClaim - 25
    rw [hcast]
  · show (Office.rewindTimeout (RewindTime.activateOp officeRewindDemo 1 5 1 20).1
        1 5 1 20 (RewindTime.activateOp officeRewindDemo 1 5 1 20).2 1100).lastClaim =
      officeRewindDemo.lastClaim - 25
    have hnp : NoPendingRewind
        { (RewindTime.activateOp officeRewindDemo 1 5 1 20).1 with
          lastClaim := (RewindTime.activateOp officeRewindDemo 1 5 1 20).2 -
            (((20 + 5) * 1 : ℤ) : ℚ) } := by
      intro b hb _
      have hb1 : b = ⟨1, .rewindTime, 5, 1, 20, true⟩ := List.mem_singleton.mp hb
      rw [hb1]
    have hbuffs : (Office.collect
        { (RewindTime.activateOp officeRewindDemo 1 5 1 20).1 with
          lastClaim := (RewindTime.activateOp officeRewindDemo 1 5 1 20).2 -
            (((20 + 5) * 1 : ℤ) : ℚ) } 1100).buffs =
        [⟨1, .rewindTime, 5, 1, 20, true⟩] := by
      rw [collect_buffs _ _ hnp]
      rfl
    have hrem : (Office.collect
        { (RewindTime.activateOp officeRewindDemo 1 5 1 20).1 with
          lastClaim := (RewindTime.activateOp officeRewindDemo 1 5 1 20).2 -
            (((20 + 5) * 1 : ℤ) : ℚ) } 1100).removeBuff 1 =
        .ok { (Office.collect
          { (RewindTime.activateOp officeRewindDemo 1 5 1 20).1 with
            lastClaim := (RewindTime.activateOp officeRewindDemo 1 5 1 20).2 -
              (((20 + 5) * 1 : ℤ) : ℚ) } 1100) with buffs := [] } := by
      unfold Office.removeBuff
      simp only [hbuffs]
      rfl
    rw [rewindTimeout_lastClaim _ _ _ _ _ _ _ _ hrem]
    show officeRewindDemo.lastClaim - (((20 + 5) * 1 : ℤ) : ℚ) =
      officeRewindDemo.lastClaim - 25
    rw [hcast]
  · show (1000 : ℚ) - 25 ≠ 1000
    norm_num

lemma staticIncomeStep_nonneg (i : ℤ) (e : StaticData) (he : StaticOK e)
    (hi : 0 ≤ i) : 0 ≤ staticIncomeStep i e :=
  add_nonneg hi (Int.fdiv_nonneg (mul_nonneg hi (mul_nonneg he.1 he.2)) (by norm_num))

lemma foldl_staticIncomeStep_nonneg (l : List StaticData) (i : ℤ)
    (hl : ∀ e ∈ l, StaticOK e) (hi : 0 ≤ i) : 0 ≤ l.foldl staticIncomeStep i := by
  induction l generalizing i with
  | nil => exact hi
  | cons e rest ih =>
      exact ih _ (fun x hx => hl x (List.mem_cons_of_mem e hx))
        (staticIncomeStep_nonneg i e (hl e (List.mem_cons_self e rest)) hi)

lemma activateBuff_spec (o : Office) (b : BuffData) (hb : BuffOK b)
    (hi : 0 ≤ o.income) :
    0 ≤ (activateBuff o b).1.income ∧
      (activateBuff o b).1.lastClaim ≤ o.lastClaim ∧
      BuffOK (activateBuff o b).2 := by
  obtain ⟨ha, hs, hd⟩ := hb
  obtain ⟨bid, kind, a, s, d, r⟩ := b
  simp only [BuffOK] at ha hs hd ⊢
  cases kind
  · exact ⟨add_nonneg hi (Int.fdiv_nonneg (mul_nonneg hi (mul_nonneg ha hs))
      (by norm_num)), le_refl _, ha, hs, hd⟩
  · exact ⟨add_nonneg hi (Int.fdiv_nonneg (mul_nonneg hi (mul_nonneg ha hs))
      (by norm_num)), le_refl _, ha, hs, hd⟩
  · exact ⟨add_nonneg hi (mul_nonneg hi (by linarith)), le_refl _, ha, hs, hd⟩
  · cases r
    · refine ⟨hi, ?_, ha, hs, hd⟩
      have hc : (0 : ℚ) ≤ (((d + a) * s : ℤ) : ℚ) :=
        Int.cast_nonneg.mpr (mul_nonneg (add_nonneg hd ha) hs)
      simp only [activateBuff]
      exact sub_le_self _ hc
    · exact ⟨hi, le_refl _, ha, hs, hd⟩
  · exact ⟨add_nonneg hi (Int.fdiv_nonneg (mul_nonneg hi (mul_nonneg ha hs))
      (by norm_num)), le_refl _, ha, hs, hd⟩

lemma activateAll_spec (l : List BuffData) (o : Office)
    (hl : ∀ b ∈ l, BuffOK b) (hi : 0 ≤ o.income) :
    0 ≤ (activateAll o l).1.income ∧
      (activateAll o l).1.lastClaim ≤ o.lastClaim ∧
      ∀ b ∈ (activateAll o l).2, BuffOK b := by
  induction l generalizing o with
  | nil => exact ⟨hi, le_refl _, by intro b hb; exact absurd hb (List.not_mem_nil b)⟩
  | cons b rest ih =>
      obtain ⟨h1, h2, h3⟩ := activateBuff_spec o b (hl b (List.mem_cons_self b rest)) hi
      obtain ⟨h4, h5, h6⟩ :=
        ih (activateBuff o b).1 (fun x hx => hl x (List.mem_cons_of_mem b hx)) h1
      refine ⟨h4, le_trans h5 h2, ?_⟩
      intro x hx
      rcases List.mem_cons.mp hx with hx1 | hx2
      · rw [hx1]; exact h3
      · exact h6 x hx2

lemma updateIncome_spec (o : Office) (hbase : 0 ≤ o.baseIncome)
    (hst : 0 ≤ o.staffIncome)
    (hfac : ∀ e ∈ o.facilities.flatMap Facility.effects, StaticOK e)
    (hbuf : ∀ b ∈ o.buffs, BuffOK b) :
    ∃ i lc bs, o.updateIncome =
        { o with effects := o.facilities.flatMap Facility.effects,
                 income := i, lastClaim := lc, buffs := bs } ∧
      0 ≤ i ∧ lc ≤ o.lastClaim ∧ ∀ b ∈ bs, BuffOK b := by
  have hbase2 : (0 : ℤ) ≤
      (o.facilities.flatMap Facility.effects).foldl staticIncomeStep o.baseIncome :=
    foldl_staticIncomeStep_nonneg _ _ hfac hbase
  obtain ⟨i0, lc, bs, hsh⟩ := activateAll_shape o.buffs
    { o with effects := o.facilities.flatMap Facility.effects, income :=
        (o.facilities.flatMap Facility.effects).foldl staticIncomeStep o.baseIncome }
  have hspec := activateAll_spec o.buffs
    { o with effects := o.facilities.flatMap Facility.effects, income :=
        (o.facilities.flatMap Facility.effects).foldl staticIncomeStep o.baseIncome }
    hbuf hbase2
  rw [hsh] at hspec
  refine ⟨i0 + o.staffIncome, lc, bs, ?_, add_nonneg hspec.1 hst, hspec.2.1, hspec.2.2⟩
  unfold Office.updateIncome Office.updateEffects
  simp only [hsh]

lemma updateIncome_inv (o : Office) (c : ℚ) (hI : Inv o c) : Inv o.updateIncome c := by
  obtain ⟨hbud, hbase, hst, hbuf, heff, hfac, hlc⟩ := hI
  have hfac2 : ∀ e ∈ o.facilities.flatMap Facility.effects, StaticOK e := by
    intro e he
    obtain ⟨f, hf, hef⟩ := List.mem_flatMap.mp he
    exact hfac f hf e hef
  obtain ⟨i, lc, bs, heq, hi, hlc2, hbs⟩ := updateIncome_spec o hbase hst hfac2 hbuf
  rw [heq]
  exact ⟨hbud, hbase, hst, hbs, hfac2, hfac, le_trans hlc2 hlc⟩

lemma pyround_nonneg (x : ℚ) (h : 0 ≤ x) : 0 ≤ pyround x := by
  unfold pyround
  have hden : (0 : ℤ) < (x.den : ℤ) := Int.ofNat_pos.mpr x.den_pos
  have hnum : 0 ≤ x.num := Rat.num_nonneg.mpr h
  have hn : 0 ≤ x.num / (x.den : ℤ) := Int.ediv_nonneg hnum (le_of_lt hden)
  dsimp only
  split
  · exact hn
  · split
    · linarith
    · split <;> linarith

lemma collect_inv (o : Office) (now c : ℚ) (hI : Inv o c) (hc : c ≤ now) :
    Inv (o.collect now) now := by
  obtain ⟨hbud, hbase, hst, hbuf, heff, hfac, hlc⟩ := hI
  have hfac2 : ∀ e ∈ o.facilities.flatMap Facility.effects, StaticOK e := by
    intro e he
    obtain ⟨f, hf, hef⟩ := List.mem_flatMap.mp he
    exact hfac f hf e hef
  obtain ⟨i, lc, bs, heq, hi, hlc2, hbs⟩ :=
    updateIncome_spec o.updateEffects hbase hst hfac2 hbuf
  have hlc3 : lc ≤ now := le_trans hlc2 (le_trans hlc hc)
  unfold Office.collect
  rw [heq]
  dsimp only
  split
  · exact ⟨hbud, hbase, hst, hbs, hfac2, hfac, hlc3⟩
  · exact ⟨add_nonneg hbud (mul_nonneg hi (pyround_nonneg _ (sub_nonneg.mpr hlc3))),
      hbase, hst, hbs, hfac2, hfac, le_refl now⟩

lemma removeBuff_ok_inv (o o1 : Office) (bid : ℕ) (c : ℚ) (hI : Inv o c)
    (h : o.removeBuff bid = .ok o1) : Inv o1 c := by
  obtain ⟨hbud, hbase, hst, hbuf, heff, hfac, hlc⟩ := hI
  unfold Office.removeBuff at h
  split at h
  · injection h with h2
    subst h2
    exact ⟨hbud, hbase, hst, fun b hb => hbuf b (List.mem_of_mem_eraseIdx hb),
      heff, hfac, hlc⟩
  · exact absurd h (by simp)

lemma upgrade_effects_OK (f : Facility) (h : ∀ e ∈ f.effects, StaticOK e) :
    ∀ e ∈ f.upgrade.effects, StaticOK e := by
  intro e he
  unfold Facility.upgrade at he
  simp only [List.mem_map] at he
  obtain ⟨e0, he0, rfl⟩ := he
  obtain ⟨h1, h2⟩ := h e0 he0
  constructor
  · show (0 : ℤ) ≤ e0.amount + 4
    linarith
  · show (0 : ℤ) ≤ if (f.level + 1) % 10 = 0 then e0.stack + 1 else e0.stack
    split <;> linarith

lemma upgrade_inv (o : Office) (idx : ℤ) (c : ℚ) (hI : Inv o c) :
    Inv (applyOp o (GameOp.upgradeFacility idx)) c := by
  obtain ⟨hbud, hbase, hst, hbuf, heff, hfac, hlc⟩ := hI
  simp only [applyOp]
  rcases hstep : o.upgradeFacilityStep idx with e | o1
  · exact ⟨hbud, hbase, hst, hbuf, heff, hfac, hlc⟩
  · unfold Office.upgradeFacilityStep at hstep
    split at hstep
    · exact absurd hstep (by simp)
    · split at hstep
      · exact absurd hstep (by simp)
      · next f hf =>
          split at hstep
          · exact absurd hstep (by simp)
          · next hcost =>
              injection hstep with h2
              subst h2
              have hfmem : f ∈ o.facilities := List.get?_mem hf
              have hnew : ∀ g ∈ o.facilities.set idx.toNat f.upgrade,
                  ∀ e ∈ g.effects, StaticOK e := by
                intro g hg
                rcases List.mem_or_eq_of_mem_set hg with h3 | h3
                · exact hfac g h3
                · rw [h3]
                  exact upgrade_effects_OK f (hfac f hfmem)
              refine ⟨?_, hbase, hst, hbuf, ?_, hnew, hlc⟩
              · show (0 : ℤ) ≤ o.budgets - f.cost
                linarith [not_lt.mp hcost]
              · show ∀ e ∈ (o.facilities.set idx.toNat f.upgrade).flatMap
                    Facility.effects, StaticOK e
                intro e he
                obtain ⟨g, hg, hge⟩ := List.mem_flatMap.mp he
                exact hnew g hg e hge

lemma hireOne_shape (o : Office) (d : StaffDraw) :
    ∃ L ic im il n, hireOne o d =
      { o with logs := L, infoConsultant := ic, infoManager := im,
               infoLeader := il, staffCounts := n } := by
  obtain ⟨pos, age⟩ := d
  cases pos <;> exact ⟨_, _, _, _, _, rfl⟩

lemma foldl_hireOne_shape (ds : List StaffDraw) (o : Office) :
    ∃ L ic im il n, ds.foldl hireOne o =
      { o with logs := L, infoConsultant := ic, infoManager := im,
               infoLeader := il, staffCounts := n } := by
  induction ds generalizing o with
  | nil => exact ⟨o.logs, _, _, _, _, rfl⟩
  | cons d rest ih =>
      obtain ⟨L1, a1, b1, c1, n1, h1⟩ := hireOne_shape o d
      obtain ⟨L2, a2, b2, c2, n2, h2⟩ := ih (hireOne o d)
      rw [List.foldl_cons, h2, h1]
      exact ⟨_, _, _, _, _, rfl⟩

lemma hire_inv (o : Office) (draws : List StaffDraw) (bulk10 : Bool) (c : ℚ)
    (hI : Inv o c) : Inv (applyOp o (GameOp.hireStaff draws bulk10)) c := by
  obtain ⟨hbud, hbase, hst, hbuf, heff, hfac, hlc⟩ := hI
  have hsum : 0 ≤ (draws.map fun d => max (55 - d.age) 10).sum := by
    apply List.sum_nonneg
    intro x hx
    obtain ⟨d, _, rfl⟩ := List.mem_map.mp hx
    exact le_trans (by norm_num) (le_max_right _ 10)
  simp only [applyOp]
  rcases hstep : o.hireStaff draws bulk10 with e | o1
  · exact ⟨hbud, hbase, hst, hbuf, heff, hfac, hlc⟩
  · unfold Office.hireStaff at hstep
    dsimp only at hstep
    split at hstep
    · exact absurd hstep (by simp)
    · next hcost =>
        injection hstep with h2
        subst h2
        obtain ⟨L2, a2, b2, c2, n2, h2⟩ := foldl_hireOne_shape draws
          { o with staffIncome :=
              o.staffIncome + (draws.map fun d => max (55 - d.age) 10).sum }
        dsimp only
        rw [h2]
        split_ifs with hs2
        · refine ⟨?_, hbase, ?_, hbuf, heff, hfac, hlc⟩
          · show (0 : ℤ) ≤ o.budgets - o.getStaffCost bulk10
            linarith [not_lt.mp hcost]
          · show (0 : ℤ) ≤ o.staffIncome + (draws.map fun d => max (55 - d.age) 10).sum
            linarith
        · refine ⟨?_, hbase, ?_, hbuf, heff, hfac, hlc⟩
          · show (0 : ℤ) ≤ o.budgets - o.getStaffCost bulk10
            linarith [not_lt.mp hcost]
          · show (0 : ℤ) ≤ o.staffIncome + (draws.map fun d => max (55 - d.age) 10).sum
            linarith

lemma removeBuffOp_inv (o : Office) (bid : ℕ) (c : ℚ) (hI : Inv o c) :
    Inv (applyOp o (GameOp.removeBuff bid)) c := by
  simp only [applyOp]
  rcases hstep : o.removeBuff bid with e | o1
  · exact hI
  · exact removeBuff_ok_inv o o1 bid c hI hstep

lemma buffTimeout_inv (o : Office) (bid : ℕ) (kind : BuffKind) (a s : ℤ)
    (now c : ℚ) (hI : Inv o c) (hc : c ≤ now) (ha : 0 ≤ a) (hs : 0 ≤ s) :
    Inv (o.buffTimeout bid kind a s now) now := by
  have h1 : Inv (o.collect now) now := collect_inv o now c hI hc
  unfold Office.buffTimeout
  dsimp only
  split
  · exact h1
  · next o2 hrem =>
      have h2 : Inv o2 now := removeBuff_ok_inv _ _ _ _ h1 hrem
      obtain ⟨j1, j2, j3, j4, j5, j6, j7⟩ := updateIncome_inv _ now h2
      split
      · exact ⟨add_nonneg j1 (Int.fdiv_nonneg (mul_nonneg j1 (mul_nonneg ha hs))
          (by norm_num)), j2, j3, j4, j5, j6, j7⟩
      · exact ⟨j1, j2, j3, j4, j5, j6, j7⟩

lemma rewindTimeout_inv (o : Office) (bid : ℕ) (a s d : ℤ) (original now c : ℚ)
    (hI : Inv o c) (ha : 0 ≤ a) (hs : 0 ≤ s) (hd : 0 ≤ d) (ho : original ≤ now) :
    Inv (o.rewindTimeout bid a s d original now) now := by
  obtain ⟨hbud, hbase, hst, hbuf, heff, hfac, hlc⟩ := hI
  have hcast : (0 : ℚ) ≤ (((d + a) * s : ℤ) : ℚ) :=
    Int.cast_nonneg.mpr (mul_nonneg (add_nonneg hd ha) hs)
  have hI1 : Inv { o with lastClaim := original - (((d + a) * s : ℤ) : ℚ) } now :=
    ⟨hbud, hbase, hst, hbuf, heff, hfac, by
      show original - (((d + a) * s : ℤ) : ℚ) ≤ now
      linarith⟩
  have h2 := collect_inv _ now now hI1 (le_refl now)
  unfold Office.rewindTimeout
  dsimp only
  split
  · exact h2
  · next o3 hrem =>
      have h3 : Inv o3 now := removeBuff_ok_inv _ _ _ _ h2 hrem
      obtain ⟨j1, j2, j3, j4, j5, j6, j7⟩ := updateIncome_inv o3 now h3
      exact ⟨j1, j2, j3, j4, j5, j6, ho⟩

lemma inv_applyOp (o : Office) (op : GameOp) (c : ℚ) (hI : Inv o c)
    (hop : OpOK c op) : Inv (applyOp o op) (clockAfter c op) := by
  cases op with
  | collect now => exact collect_inv o now c hI hop
  | upgradeFacility idx => exact upgrade_inv o idx c hI
  | hireStaff draws bulk10 => exact hire_inv o draws bulk10 c hI
  | addTimedBuff bid kind a s d =>
      obtain ⟨hk, ha, hs, hd⟩ := hop
      obtain ⟨hbud, hbase, hst, hbuf, heff, hfac, hlc⟩ := hI
      refine ⟨hbud, hbase, hst, ?_, heff, hfac, hlc⟩
      intro b hb
      rcases List.mem_append.mp hb with hb1 | hb2
      · exact hbuf b hb1
      · rw [List.mem_singleton.mp hb2]
        exact ⟨ha, hs, hd⟩
  | removeBuff bid => exact removeBuffOp_inv o bid c hI
  | buffTimeout bid kind a s now =>
      obtain ⟨ha, hs, hc⟩ := hop
      exact buffTimeout_inv o bid kind a s now c hI hc ha hs
  | rewindTimeout bid a s d original now =>
      obtain ⟨ha, hs, hd, ho, hc⟩ := hop
      exact rewindTimeout_inv o bid a s d original now c hI ha hs hd ho
  | refreshIncome => exact updateIncome_inv o c hI

lemma inv_applyTrace (ops : List GameOp) (o : Office) (c : ℚ)
    (hI : Inv o c) (hv : ValidFrom c ops) :
    ∃ cf, Inv (applyTrace o ops) cf := by
  induction ops generalizing o c with
  | nil => exact ⟨c, hI⟩
  | cons op rest ih =>
      obtain ⟨hop, hrest⟩ := hv
      exact ih (applyOp o op) (clockAfter c op) (inv_applyOp o op c hI hop) hrest

lemma officeInit_inv (n a : String) (t0 : ℚ) : Inv (officeInit n a t0) t0 := by
  refine ⟨?_, ?_, ?_, ?_, ?_, ?_, ?_⟩
  · show (0 : ℤ) ≤ 1600
    norm_num
  · show (0 : ℤ) ≤ 10
    norm_num
  · exact le_refl 0
  · exact fun b hb => absurd hb (List.not_mem_nil b)
  · show ∀ e ∈ initialFacilities.flatMap Facility.effects, StaticOK e
    decide
  · show ∀ f ∈ initialFacilities, ∀ e ∈ f.effects, StaticOK e
    decide
  · exact le_refl t0

/-- C9: starting from the freshly constructed office, `budget >= 0` holds
after every settlement and is preserved by every engine operation along any
well-formed trace: `collect` adds a nonnegative delta (nonnegative recomputed
rate times nonnegative elapsed whole seconds), and facility upgrades and
staff hires debit the budget only after their affordability check passed, so
no operation drives the budget negative. -/
theorem budget_nonneg (n a : String) (t0 : ℚ) (ops : List GameOp)
    (hv : ValidFrom t0 ops) :
    0 ≤ (applyTrace (officeInit n a t0) ops).budgets := by
  obtain ⟨cf, hI⟩ := inv_applyTrace ops _ t0 (officeInit_inv n a t0) hv
  exact hI.1

theorem budget_nonneg_witness :
    ValidFrom 0 [GameOp.collect 10, GameOp.hireStaff [⟨.consultant, 30⟩] false] ∧
      0 ≤ (applyTrace (officeInit "a" "b" 0)
        [GameOp.collect 10, GameOp.hireStaff [⟨.consultant, 30⟩] false]).budgets :=
  have hv : ValidFrom 0 [GameOp.collect 10, GameOp.hireStaff [⟨.consultant, 30⟩] false] :=
    ⟨show (0 : ℚ) ≤ 10 by norm_num, trivial, trivial⟩
  ⟨hv, budget_nonneg "a" "b" 0 _ hv⟩

end Tycoon
